import Mathlib

/-!
Verification development for the `dataimg` repository: a shallow embedding of
`scripts/pdf_image_extractor.py` (class `PDFImageExtractor`) and
`scripts/nombres_prefijos.py` (class `ImageRenamer.parse_filename`), together
with theorems settling the behavioural claims about these scripts.

Modelling conventions:
* Python `str` is modelled as Lean `String` / `List Char`.  Character classes
  of Python's `re` module (`\w`, `\s`, `\d`) and the case maps `str.lower` /
  `str.upper` / `str.capitalize` are modelled on the ASCII range (the Python
  originals are Unicode-aware; every concrete input used in a theorem below is
  chosen so that the ASCII model and the Python behaviour agree).
* The regular expressions occurring in the source are simple enough to be
  backtracking-free (every quantified class is disjoint from the character
  that follows it), so each one is embedded as a direct maximal-munch scanner.
  `re.findall` (non-overlapping, left-to-right) and `re.search` (leftmost
  match) are embedded by the generic drivers `findall` / `searchFirst`.
* PyMuPDF coordinates are floats; they are modelled as `Rat`.
* A Python exception is modelled as `Except.error` / a `Bool` success flag.
-/

namespace DataImg

/-- ASCII model of `str.lower` (and of `re.IGNORECASE` folding): uppercase
ASCII letters are mapped to lowercase, all other characters are fixed. -/
def asciiLower (c : Char) : Char :=
  match c with
  | 'A' => 'a' | 'B' => 'b' | 'C' => 'c' | 'D' => 'd' | 'E' => 'e' | 'F' => 'f'
  | 'G' => 'g' | 'H' => 'h' | 'I' => 'i' | 'J' => 'j' | 'K' => 'k' | 'L' => 'l'
  | 'M' => 'm' | 'N' => 'n' | 'O' => 'o' | 'P' => 'p' | 'Q' => 'q' | 'R' => 'r'
  | 'S' => 's' | 'T' => 't' | 'U' => 'u' | 'V' => 'v' | 'W' => 'w' | 'X' => 'x'
  | 'Y' => 'y' | 'Z' => 'z'
  | c => c

/-- ASCII model of `str.upper`: lowercase ASCII letters are mapped to
uppercase, all other characters are fixed. -/
def asciiUpper (c : Char) : Char :=
  match c with
  | 'a' => 'A' | 'b' => 'B' | 'c' => 'C' | 'd' => 'D' | 'e' => 'E' | 'f' => 'F'
  | 'g' => 'G' | 'h' => 'H' | 'i' => 'I' | 'j' => 'J' | 'k' => 'K' | 'l' => 'L'
  | 'm' => 'M' | 'n' => 'N' | 'o' => 'O' | 'p' => 'P' | 'q' => 'Q' | 'r' => 'R'
  | 's' => 'S' | 't' => 'T' | 'u' => 'U' | 'v' => 'V' | 'w' => 'W' | 'x' => 'X'
  | 'y' => 'Y' | 'z' => 'Z'
  | c => c

/-- Python's `\s` class (ASCII part): space, tab, newline, carriage return,
vertical tab, form feed. -/
def isSpaceChar (c : Char) : Bool :=
  c = ' ' || c = '\t' || c = '\n' || c = '\r' || c = '\x0b' || c = '\x0c'

/-- Python's `\w` class (ASCII part): letters, digits and underscore. -/
def isWordChar (c : Char) : Bool :=
  c.isAlphanum || c = '_'

/-- The characters kept by `re.sub(r'[^\w\s-]', '', ·)` in both sanitizers:
word characters, whitespace and the hyphen. -/
def keepChar (c : Char) : Bool :=
  isWordChar c || isSpaceChar c || c = '-'

/-- The separator class `[\s_-]` of `re.sub(r'[\s_-]+', '_', ·)`. -/
def isSepChar (c : Char) : Bool :=
  isSpaceChar c || c = '_' || c = '-'

/-- Python `str.capitalize` (ASCII model): first character uppercased, the
rest lowercased. -/
def capitalizeL : List Char → List Char
  | [] => []
  | c :: rest => asciiUpper c :: rest.map asciiLower

/-- Python `str.strip` (ASCII whitespace model): remove leading and trailing
whitespace. -/
def stripL (l : List Char) : List Char :=
  ((l.dropWhile isSpaceChar).reverse.dropWhile isSpaceChar).reverse

/-- Helper for `splitRuns`: accumulates the current run (reversed) while
scanning. -/
def splitRunsAux (keep : Char → Bool) : List Char → List Char → List (List Char)
  | [], acc => if acc.isEmpty then [] else [acc.reverse]
  | c :: rest, acc =>
    if keep c then splitRunsAux keep rest (c :: acc)
    else if acc.isEmpty then splitRunsAux keep rest []
    else acc.reverse :: splitRunsAux keep rest []

/-- The maximal runs of characters satisfying `keep`, in order, empties
discarded.  With `keep = (!isSpaceChar ·)` this is Python's `str.split()`;
with `keep = isWordChar` it yields the `\w+` tokens used to model the
word-boundary pattern `\b(\d{1,2})\b`. -/
def splitRuns (keep : Char → Bool) (l : List Char) : List (List Char) :=
  splitRunsAux keep l []

/-- Python `str.split(sep)` for a one-character separator: empty fragments
are kept (e.g. `"a__b".split('_') == ['a', '', 'b']`). -/
def splitOnChar (sep : Char) : List Char → List (List Char)
  | [] => [[]]
  | c :: rest =>
    let ws := splitOnChar sep rest
    if c = sep then [] :: ws
    else
      match ws with
      | [] => [[c]]
      | w :: tail => (c :: w) :: tail

/-- Model of `re.sub(r'[\s_-]+', '_', ·)`: every maximal run of separator characters
is replaced by a single underscore.  The Boolean argument records whether the
previous character belonged to a (already replaced) separator run. -/
def collapseRunsAux : Bool → List Char → List Char
  | _, [] => []
  | inSep, c :: rest =>
    if isSepChar c then
      if inSep then collapseRunsAux true rest
      else '_' :: collapseRunsAux true rest
    else c :: collapseRunsAux false rest

/-- Model of `re.sub(r'[\s_-]+', '_', l)`. -/
def collapseRuns (l : List Char) : List Char :=
  collapseRunsAux false l

/-- Test that `needle` is an initial segment of `hay`. -/
def leadEq : List Char → List Char → Bool
  | [], _ => true
  | _ :: _, [] => false
  | a :: an, b :: bn => a = b && leadEq an bn

/-- Python's substring test `needle in hay` (case sensitive). -/
def listContains (needle : List Char) : List Char → Bool
  | [] => needle.isEmpty
  | c :: rest => leadEq needle (c :: rest) || listContains needle rest

/-- The numeric value of a digit string, Python `int`. -/
def digitsToNat (l : List Char) : Nat :=
  l.foldl (fun acc c => acc * 10 + (c.toNat - 48)) 0

/-- Consume `\d+` (greedy): the maximal nonempty digit run and the rest. -/
def takeDigits1 (s : List Char) : Option (List Char × List Char) :=
  let d := s.takeWhile Char.isDigit
  if d.isEmpty then none else some (d, s.dropWhile Char.isDigit)

/-- Consume `\s+` (greedy): require at least one whitespace character. -/
def takeSpaces1 (s : List Char) : Option (List Char) :=
  if (s.takeWhile isSpaceChar).isEmpty then none else some (s.dropWhile isSpaceChar)

/-- Consume `\s*` (greedy). -/
def takeSpaces0 (s : List Char) : List Char :=
  s.dropWhile isSpaceChar

/-- Consume a literal, case-insensitively (`re.IGNORECASE`, ASCII model);
returns the actually matched characters (original case) and the rest. -/
def takeLitCI2 : List Char → List Char → Option (List Char × List Char)
  | [], s => some ([], s)
  | _ :: _, [] => none
  | p :: ps, b :: bs =>
    if asciiLower b = asciiLower p then
      match takeLitCI2 ps bs with
      | some (m, r) => some (b :: m, r)
      | none => none
    else none

/-- Generic driver for `re.findall`: scan left to right; on a match emit the
capture and resume after the match (non-overlapping), otherwise advance one
character.  All pattern matchers used below consume at least one character,
so `fuel = length` steps suffice. -/
def findallFuel (patAt : List Char → Option (α × List Char)) :
    Nat → List Char → List α
  | 0, _ => []
  | _, [] => []
  | fuel + 1, c :: rest =>
    match patAt (c :: rest) with
    | some (cap, remaining) => cap :: findallFuel patAt fuel remaining
    | none => findallFuel patAt fuel rest

/-- Model of `re.findall pat s`. -/
def findall (patAt : List Char → Option (α × List Char)) (s : List Char) : List α :=
  findallFuel patAt s.length s

/-- Model of `re.search pat s`: the captures of the leftmost match, if any. -/
def searchFirst (patAt : List Char → Option (α × List Char)) : List Char → Option α
  | [] => none
  | c :: rest =>
    match patAt (c :: rest) with
    | some (cap, _) => some cap
    | none => searchFirst patAt rest

/-- The literal `Pregunta` (pattern side, for case-insensitive matching). -/
def preguntaLit : List Char := ['P', 'r', 'e', 'g', 'u', 'n', 't', 'a']

/-- Matcher for `1\.(\d+)\s+Pregunta\s+(\d+)` (with `re.IGNORECASE`) at the
start of the input: captures the two digit groups. -/
def pat1At (s : List Char) : Option ((List Char × List Char) × List Char) :=
  match s with
  | '1' :: '.' :: rest =>
    (takeDigits1 rest).bind fun dr1 =>
    (takeSpaces1 dr1.2).bind fun r2 =>
    (takeLitCI2 preguntaLit r2).bind fun mr =>
    (takeSpaces1 mr.2).bind fun r4 =>
    (takeDigits1 r4).bind fun dr2 =>
    some ((dr1.1, dr2.1), dr2.2)
  | _ => none

/-- Matcher for `Pregunta\s+(\d+)` (with `re.IGNORECASE`) at the start of the
input. -/
def pat2At (s : List Char) : Option (List Char × List Char) :=
  (takeLitCI2 preguntaLit s).bind fun mr =>
  (takeSpaces1 mr.2).bind fun r2 =>
  (takeDigits1 r2).bind fun dr =>
  some (dr.1, dr.2)

/-- Matcher for `(\d+)\s+Pregunta\s+(\d+)` (with `re.IGNORECASE`) at the
start of the input. -/
def pat3At (s : List Char) : Option ((List Char × List Char) × List Char) :=
  (takeDigits1 s).bind fun dr1 =>
  (takeSpaces1 dr1.2).bind fun r2 =>
  (takeLitCI2 preguntaLit r2).bind fun mr =>
  (takeSpaces1 mr.2).bind fun r4 =>
  (takeDigits1 r4).bind fun dr2 =>
  some ((dr1.1, dr2.1), dr2.2)

/-- Matcher for `Pregunta\s*(\d+)` (with `re.IGNORECASE`) at the start of the
input. -/
def pat4At (s : List Char) : Option (List Char × List Char) :=
  (takeLitCI2 preguntaLit s).bind fun mr =>
  (takeDigits1 (takeSpaces0 mr.2)).bind fun dr =>
  some (dr.1, dr.2)

/-- Matcher for `1\.(\d+)` (case sensitive) at the start of the input. -/
def patLine1At (s : List Char) : Option (List Char × List Char) :=
  match s with
  | '1' :: '.' :: rest =>
    (takeDigits1 rest).bind fun dr => some (dr.1, dr.2)
  | _ => none

/-- The word-boundary pattern `\b(\d{1,2})\b` under `re.findall`: its matches
are exactly the maximal `\w+` runs of the text that consist of one or two
digits only.  (A digit run adjacent to another word character has no boundary
on that side; a run of three or more digits fails the trailing `\b` for both
quantifier choices.) -/
def boundaryNumbers (s : List Char) : List (List Char) :=
  (splitRuns isWordChar s).filter fun w =>
    w.all Char.isDigit && (w.length = 1 || w.length = 2)

/-- PyMuPDF `fitz.Rect`, coordinates modelled as rationals. -/
structure Rect where
  x0 : Rat
  y0 : Rat
  x1 : Rat
  y1 : Rat
deriving DecidableEq

/-- Lines 127–131 of `pdf_image_extractor.py`, reached with the match list of
a *single-group* pattern (a list of strings): `if len(matches[0]) == 2:`
compares the *string length* of the first match with 2, and in that branch
`matches[-1][1]` indexes into the last matched string — yielding its second
character, or raising `IndexError` when that string is shorter than two
characters. -/
def pyIndexSelect (ms : List (List Char)) : Except Unit String :=
  if (ms.headD []).length = 2 then
    match (ms.getLastD [])[1]? with
    | some ch => Except.ok ("Pregunta_" ++ String.mk [ch])
    | none => Except.error ()
  else Except.ok ("Pregunta_" ++ String.mk (ms.getLastD []))

/-- Scan of `text.split('\n')` (lines 134–146 of the source): for each
stripped line, first try `re.search(r'Pregunta\s+(\d+)')` when the line
contains the literal `Pregunta` (case sensitive `in`), then try
`re.search(r'1\.(\d+)')`; return the first capture found. -/
def lineScan : List (List Char) → Option (List Char)
  | [] => none
  | line :: rest =>
    let l := stripL line
    match (if listContains preguntaLit l then searchFirst pat2At l else none) with
    | some d => some d
    | none =>
      match searchFirst patLine1At l with
      | some d => some d
      | none => lineScan rest

/-- Embedding of `PDFImageExtractor.extract_question_from_text` (lines 110–156).  The
`image_position` argument is accepted and never used, exactly as in the
source.  `Except.error` models a raised `IndexError`. -/
def extract_question_from_text (text : String) (image_position : Rect) :
    Except Unit String :=
  let s := text.toList
  let m1 := findall pat1At s
  if !m1.isEmpty then
    -- two-group pattern: each match is a pair, so `len(matches[0]) == 2`
    -- holds and `matches[-1][1]` is the second group of the last match
    Except.ok ("Pregunta_" ++ String.mk (m1.getLastD ([], [])).2)
  else
    let m2 := findall pat2At s
    if !m2.isEmpty then pyIndexSelect m2
    else
      let m3 := findall pat3At s
      if !m3.isEmpty then
        Except.ok ("Pregunta_" ++ String.mk (m3.getLastD ([], [])).2)
      else
        let m4 := findall pat4At s
        if !m4.isEmpty then pyIndexSelect m4
        else
          match lineScan (splitOnChar '\n' s) with
          | some d => Except.ok ("Pregunta_" ++ String.mk d)
          | none =>
            let valid := (boundaryNumbers s).filter fun w =>
              1 ≤ digitsToNat w && digitsToNat w ≤ 50
            if !valid.isEmpty then
              Except.ok ("Pregunta_" ++ String.mk (valid.getLastD []))
            else Except.ok "Pregunta_Desconocida"

/-- The fixed keyword vocabulary of
`PDFImageExtractor.is_scientific_content` (lines 193–199). -/
def scientific_keywords : List String :=
  ["química", "física", "biología", "fórmula", "ecuación",
   "gráfico", "tabla", "diagrama", "elemento", "molécula",
   "átomo", "reacción", "experimento", "laboratorio", "ácido",
   "base", "pH", "temperatura", "presión", "volumen", "masa",
   "velocidad", "aceleración", "fuerza", "energía"]

/-- Embedding of `PDFImageExtractor.is_scientific_content` (lines 189–202): lowercase the
text, then test each keyword (as written, *not* lowercased) for substring
membership. -/
def is_scientific_content (surrounding_text : String) : Bool :=
  let text_lower := surrounding_text.toList.map asciiLower
  scientific_keywords.any fun kw => listContains kw.toList text_lower

/-- Line 244 of the source: `"Cientifica" if is_scientific else "General"`. -/
def content_type_of (surrounding_text : String) : String :=
  if is_scientific_content surrounding_text then "Cientifica" else "General"

/-- Embedding of `PDFImageExtractor.clean_banco_name` (lines 33–55): strip characters
outside `[\w\s-]`, split on *whitespace* (`str.split()`), capitalize and
concatenate the words, truncate to 15 characters, fall back to
`"BancoPreguntas"` when empty.  Note: unlike the prefix cleaner below there
is no `[\s_-]+ → _` collapse and no split on underscores. -/
def clean_banco_name (banco_name : String) : String :=
  if banco_name = "" then "BancoPreguntas"
  else
    let cleaned := banco_name.toList.filter keepChar
    let words := splitRuns (fun c => !isSpaceChar c) cleaned
    let camel_case := List.flatten ((words.filter fun w => !w.isEmpty).map capitalizeL)
    let camel_case := if camel_case.length > 15 then camel_case.take 15 else camel_case
    if camel_case.isEmpty then "BancoPreguntas" else String.mk camel_case

/-- Model of `os.path.basename`, modelled for the separators `/` and `\` (the script
targets Windows paths). -/
def os_basename (p : String) : String :=
  String.mk ((p.toList.reverse.takeWhile fun c => !(c = '/' || c = '\\')).reverse)

/-- The root part of `os.path.splitext`: drop the extension after the last
dot, unless every character before that dot is itself a dot (CPython's
leading-dot rule, e.g. `.bashrc` keeps its name). -/
def splitext_root (b : List Char) : List Char :=
  let afterDot := (b.reverse.takeWhile fun c => !(c = '.')).length
  if afterDot = b.length then b
  else
    let root := b.take (b.length - afterDot - 1)
    if root.all fun c => c = '.' then b else root

/-- Embedding of `PDFImageExtractor.extract_pdf_prefix` (lines 57–98): basename without
extension, strip characters outside `[\w\s-]`, collapse `[\s_-]+` runs to a
single underscore, split on underscore, capitalize and concatenate; if the
result exceeds 20 characters, abbreviate using the words longer than three
characters (first 4 capitalized characters of each when there are at most 3
such words, else first 3 characters of the first 4 words), then truncate to
20; fall back to `"PDF"` when empty.  (Named `extract_pdf_pfx` here; the
source name is `extract_pdf_prefix`.) -/
def extract_pdf_pfx (pdf_path : String) : String :=
  let filename := splitext_root (os_basename pdf_path).toList
  let cleaned_name := collapseRuns (filename.filter keepChar)
  let words := splitOnChar '_' cleaned_name
  let camel_case := List.flatten ((words.filter fun w => !w.isEmpty).map capitalizeL)
  let camel_case :=
    if camel_case.length > 20 then
      let important_words := words.filter fun w => w.length > 3
      let camel2 :=
        if !important_words.isEmpty then
          if important_words.length ≤ 3 then
            List.flatten (important_words.map fun w => (capitalizeL w).take 4)
          else
            List.flatten ((important_words.take 4).map fun w => (capitalizeL w).take 3)
        else camel_case
      if camel2.length > 20 then camel2.take 20 else camel2
    else camel_case
  if camel_case.isEmpty then "PDF" else String.mk camel_case

/-- Result record of `ImageRenamer.parse_filename`: the dict
`{"question": …, "page": …, "type": …}` with `None` as `none`. -/
structure ParsedName where
  question : Option String
  page : Option String
  type : Option String
deriving DecidableEq

/-- Matcher for `Pregunta_(\d+)` (with `re.IGNORECASE`) at the start of the
input. -/
def patQAt (s : List Char) : Option (List Char × List Char) :=
  (takeLitCI2 "Pregunta_".toList s).bind fun mr =>
  (takeDigits1 mr.2).bind fun dr =>
  some (dr.1, dr.2)

/-- Matcher for `(Cientifica)` (with `re.IGNORECASE`) at the start of the
input; the capture is the matched text itself, in its original case. -/
def patCientAt (s : List Char) : Option (List Char × List Char) :=
  takeLitCI2 "Cientifica".toList s

/-- Matcher for `Pag(\d+)` (with `re.IGNORECASE`) at the start of the
input. -/
def patPagAt (s : List Char) : Option (List Char × List Char) :=
  (takeLitCI2 "Pag".toList s).bind fun mr =>
  (takeDigits1 mr.2).bind fun dr =>
  some (dr.1, dr.2)

/-- Embedding of `ImageRenamer.parse_filename` (`nombres_prefijos.py`, lines 51–77):
three independent case-insensitive `re.search` calls; the category capture
is passed through `str.capitalize`. -/
def parse_filename (filename : String) : ParsedName :=
  let s := filename.toList
  { question := (searchFirst patQAt s).map String.mk
    page := (searchFirst patPagAt s).map String.mk
    type := (searchFirst patCientAt s).map fun m => String.mk (capitalizeL m) }

/-- Matcher for a question number after `Pregunta_` *or* `Pregunta ` — the
claim's reading of the question pattern (the source only accepts the
underscore form). -/
def patQClaimAt (s : List Char) : Option (List Char × List Char) :=
  (takeLitCI2 preguntaLit s).bind fun mr =>
  match mr.2 with
  | c :: rest =>
    if c = '_' || c = ' ' then
      (takeDigits1 rest).bind fun dr => some (dr.1, dr.2)
    else none
  | [] => none

/-- Variant of `parse_filename` as the claim states it: the question number may follow
either the token `Pregunta_` or the token `Pregunta ` (space). -/
def parse_filename_claimed (filename : String) : ParsedName :=
  let s := filename.toList
  { question := (searchFirst patQClaimAt s).map String.mk
    page := (searchFirst patPagAt s).map String.mk
    type := (searchFirst patCientAt s).map fun m => String.mk (capitalizeL m) }

/-- Variant of `parse_filename` as amended: the question number follows the literal
token `Pregunta_` only; the category field is `"Cientifica"` exactly when
the token `Cientifica` occurs case-insensitively; the page number follows
the token `Pag`; each search independent and optional. -/
def parse_filename_amended (filename : String) : ParsedName :=
  let s := filename.toList
  { question := (searchFirst patQAt s).map String.mk
    page := (searchFirst patPagAt s).map String.mk
    type := if (searchFirst patCientAt s).isSome then some "Cientifica" else none }

/-- An image embedded in a page, as the pipeline sees it
(`page.get_images()` entry plus the data of `doc.extract_image(xref)`).
`extract_ok` models whether `doc.extract_image` succeeds, `write_ok`
whether the file write succeeds; `False` stands for a raised exception. -/
structure ImageCandidate where
  width : Nat
  height : Nat
  ext : String
  rects : List Rect
  extract_ok : Bool
  write_ok : Bool

/-- A page of the document: its rectangle (origin 0, so the page bounds are
`[0, width] × [0, height]`), the clipped text query `get_text("text",
clip=·)`, the full-page text `get_text("text")`, and its embedded images. -/
structure Page where
  width : Rat
  height : Rat
  getText : Rect → String
  fullText : String
  images : List ImageCandidate

/-- Embedding of `PDFImageExtractor.get_surrounding_text` (lines 158–187).  The margin
parameter defaults to 100 in the source; callers here pass it explicitly. -/
def get_surrounding_text (page : Page) (image_rect : Rect) (context_margin : Rat) :
    String × String :=
  let search_rect : Rect :=
    ⟨max 0 (image_rect.x0 - context_margin),
     max 0 (image_rect.y0 - context_margin * 3),
     min page.width (image_rect.x1 + context_margin),
     min page.height (image_rect.y1 + context_margin)⟩
  let surrounding_text := page.getText search_rect
  let full_page_text := page.fullText
  let above_image_rect : Rect :=
    ⟨0, max 0 (image_rect.y0 - context_margin * 2), page.width, image_rect.y0⟩
  let above_text := page.getText above_image_rect
  (surrounding_text ++ "\n" ++ above_text, full_page_text)

/-- Variant of `get_surrounding_text` as the claim states it: the second rectangle
spans the full page width *from the top of the page* (y = 0) down to the
image's top edge. -/
def get_surrounding_text_claimed (page : Page) (image_rect : Rect)
    (context_margin : Rat) : String × String :=
  let search_rect : Rect :=
    ⟨max 0 (image_rect.x0 - context_margin),
     max 0 (image_rect.y0 - context_margin * 3),
     min page.width (image_rect.x1 + context_margin),
     min page.height (image_rect.y1 + context_margin)⟩
  let above_image_rect : Rect := ⟨0, 0, page.width, image_rect.y0⟩
  (page.getText search_rect ++ "\n" ++ page.getText above_image_rect, page.fullText)

/-- Variant of `get_surrounding_text` as amended: the second rectangle spans the full
page width from `max(0, image top − 2·margin)` down to the image's top
edge. -/
def get_surrounding_text_amended (page : Page) (image_rect : Rect)
    (context_margin : Rat) : String × String :=
  let search_rect : Rect :=
    ⟨max 0 (image_rect.x0 - context_margin),
     max 0 (image_rect.y0 - context_margin * 3),
     min page.width (image_rect.x1 + context_margin),
     min page.height (image_rect.y1 + context_margin)⟩
  let above_image_rect : Rect :=
    ⟨0, max 0 (image_rect.y0 - context_margin * 2), page.width, image_rect.y0⟩
  (page.getText search_rect ++ "\n" ++ page.getText above_image_rect, page.fullText)

/-- The per-image record accumulated by the pipeline (the `image_info`
dict of lines 255–267).  `tamano` is the source's `tamaño` field. -/
structure ImageRecord where
  numero : Nat
  pagina : Nat
  archivo : String
  banco_preguntas : String
  prefijo_pdf : String
  pregunta : String
  tipo_contenido : String
  posicion : Rat × Rat
  tamano : String
  formato : String
  texto_contexto : String
deriving DecidableEq, Inhabited

/-- The fallback placement `fitz.Rect(0, 0, 100, 100)` of line 231. -/
def default_rect : Rect := ⟨0, 0, 100, 100⟩

/-- Python's `f"{n:03d}"`: decimal representation zero-padded to width 3. -/
def format003 (n : Nat) : String :=
  String.mk (List.replicate (3 - (Nat.repr n).length) '0') ++ Nat.repr n

/-- Python's `round(x, 2)` (the source uses it only for display; binary
floating-point round-half-to-even is modelled as round-half-up on
rationals). -/
def round2 (q : Rat) : Rat :=
  Rat.divInt (Rat.floor (q * 100 + 1 / 2)) 100

/-- The body of the per-image loop of
`PDFImageExtractor.extract_images_from_page` (lines 211–275): returns
`some (record, filename)` when the image is extracted and written, `none`
when it is skipped — because extraction raised (`extract_ok = false`),
because of the minimum-size filter, because question identification raised
`IndexError`, or because the write raised (`write_ok = false`).  The
enclosing `try/except` catches every exception, so a skipped image produces
no record and leaves the counter untouched. -/
def processImage (banco pfx : String) (page : Page) (page_num : Nat)
    (counter : Nat) (img : ImageCandidate) : Option (ImageRecord × String) :=
  if !img.extract_ok then none
  else if img.width < 50 || img.height < 50 then none
  else
    let image_rect := img.rects.headD default_rect
    let st := get_surrounding_text page image_rect 100
    match extract_question_from_text (st.1 ++ "\n" ++ st.2) image_rect with
    | Except.error _ => none
    | Except.ok question_name =>
      let content_type := if is_scientific_content (st.1 ++ st.2) then "Cientifica" else "General"
      let filename := format003 counter ++ ("_" ++ banco ++ "_" ++ pfx ++ "_" ++
        question_name ++ "_" ++ content_type ++ "_Pag" ++ Nat.repr (page_num + 1) ++
        "." ++ img.ext)
      if !img.write_ok then none
      else
        some (⟨counter, page_num + 1, filename, banco, pfx, question_name, content_type,
          (round2 image_rect.x0, round2 image_rect.y0),
          Nat.repr img.width ++ "x" ++ Nat.repr img.height, img.ext,
          if st.1.length > 200 then st.1.take 200 ++ "..." else st.1⟩, filename)

/-- The per-image loop of `extract_images_from_page`, threading the sequence
counter: returns the records appended, the filenames written, and the final
counter value. -/
def extract_images_loop (banco pfx : String) (page : Page) (page_num : Nat) :
    List ImageCandidate → Nat → List ImageRecord × List String × Nat
  | [], counter => ([], [], counter)
  | img :: rest, counter =>
    match processImage banco pfx page page_num counter img with
    | none => extract_images_loop banco pfx page page_num rest counter
    | some (r, fn) =>
      let t := extract_images_loop banco pfx page page_num rest (counter + 1)
      (r :: t.1, fn :: t.2.1, t.2.2)

/-- Embedding of `PDFImageExtractor.extract_images_from_page` (lines 204–277). -/
def extract_images_from_page (banco pfx : String) (page : Page) (page_num : Nat)
    (counter : Nat) : List ImageRecord × List String × Nat :=
  extract_images_loop banco pfx page page_num page.images counter

/-- The page loop of `PDFImageExtractor.extract_all_images` (lines
288–291). -/
def extract_pages_loop (banco pfx : String) :
    List Page → Nat → Nat → List ImageRecord × List String × Nat
  | [], _, counter => ([], [], counter)
  | pg :: rest, page_num, counter =>
    let h := extract_images_from_page banco pfx pg page_num counter
    let t := extract_pages_loop banco pfx rest (page_num + 1) h.2.2
    (h.1 ++ t.1, h.2.1 ++ t.2.1, t.2.2)

/-- A document as `fitz.open` delivers it; `open_ok = false` models an
exception raised by `fitz.open` (caught in `open_pdf`, which then returns
`False`). -/
structure Document where
  open_ok : Bool
  pages : List Page

/-- The observable outcome of one pipeline run: the returned records, the
image files written, and the report file (if written). -/
structure RunResult where
  records : List ImageRecord
  files : List String
  report : Option String

/-- Dict update `d[k] = d.get(k, 0) + 1` on an insertion-ordered
association list (Python dicts preserve insertion order). -/
def bumpCount {α : Type} [DecidableEq α] : List (α × Nat) → α → List (α × Nat)
  | [], k => [(k, 1)]
  | (k', v) :: rest, k =>
    if k' = k then (k', v + 1) :: rest else (k', v) :: bumpCount rest k

/-- The `formatos` dict of `generate_report` (lines 326–329). -/
def formatCounts (images : List ImageRecord) : List (String × Nat) :=
  images.foldl (fun m img => bumpCount m img.formato) []

/-- The `paginas` dict of `generate_report` (lines 337–340). -/
def pageCounts (images : List ImageRecord) : List (Nat × Nat) :=
  images.foldl (fun m img => bumpCount m img.pagina) []

/-- Dict lookup `d[k]` with default 0. -/
def lookupCount {α : Type} [DecidableEq α] (m : List (α × Nat)) (k : α) : Nat :=
  ((m.find? fun p => p.1 == k).map Prod.snd).getD 0

/-- Model of `sorted(paginas.keys())` (line 343): the page keys in ascending order. -/
def sortedPageKeys (images : List ImageRecord) : List Nat :=
  List.insertionSort (· ≤ ·) ((pageCounts images).map Prod.fst)

/-- String repetition, Python `c * n`. -/
def repChar (c : Char) (n : Nat) : String :=
  String.mk (List.replicate n c)

/-- Python's `enumerate(l, n)`. -/
def enumFrom {α : Type} (n : Nat) : List α → List (Nat × α)
  | [] => []
  | x :: xs => (n, x) :: enumFrom (n + 1) xs

/-- Sum of the counts of a counting dict. -/
def sumSnd {α : Type} (m : List (α × Nat)) : Nat :=
  (m.map Prod.snd).sum

/-- One detail block of the report (lines 351–366); `i` is the 1-based
position from `enumerate(images, 1)`.  Numeric rendering of the position
pair is abstracted by `toString` on rationals. -/
def detailBlock (i : Nat) (img : ImageRecord) : String :=
  "IMAGEN #" ++ Nat.repr img.numero ++ " (#" ++ Nat.repr i ++ " en secuencia)\n" ++
  repChar '─' 50 ++ "\n" ++
  "📄 Archivo: " ++ img.archivo ++ "\n" ++
  "🏷️  Prefijo: " ++ img.prefijo_pdf ++ "\n" ++
  "📍 Página: " ++ Nat.repr img.pagina ++ "\n" ++
  "🔢 Pregunta: " ++ img.pregunta ++ "\n" ++
  "🧪 Tipo: " ++ img.tipo_contenido ++ "\n" ++
  "📐 Posición: (" ++ toString img.posicion.1 ++ ", " ++ toString img.posicion.2 ++ ")\n" ++
  "📏 Tamaño: " ++ img.tamano ++ " píxeles\n" ++
  "🎨 Formato: " ++ String.mk (img.formato.toList.map asciiUpper) ++ "\n" ++
  (if (stripL img.texto_contexto.toList).isEmpty then ""
   else "📝 Contexto: " ++ img.texto_contexto ++ "\n") ++
  "\n"

/-- The detail section of the report: one block per record, in extraction
order (lines 351–366). -/
def reportDetails (images : List ImageRecord) : List String :=
  (enumFrom 1 images).map fun p => detailBlock p.1 p.2

/-- Embedding of `PDFImageExtractor.generate_report` (lines 300–391), as the text written
to `reporte_extraccion.txt`.  The `fecha` parameter stands for the output of
`os.popen('date /t')`. -/
def generate_report (pdf_path banco pfx output_folder fecha : String)
    (images : List ImageRecord) : String :=
  let sep70 := repChar '=' 70
  let cientificas := images.filter fun img => img.tipo_contenido = "Cientifica"
  let generales := images.filter fun img => img.tipo_contenido = "General"
  sep70 ++ "\n" ++
  "REPORTE DETALLADO DE EXTRACCIÓN DE IMÁGENES\n" ++
  "PDF de Ciencias Naturales - Ejercicios Resueltos\n" ++
  sep70 ++ "\n\n" ++
  "📁 PDF procesado: " ++ pdf_path ++ "\n" ++
  "🏦 Banco de preguntas: " ++ banco ++ "\n" ++
  "🏷️  Prefijo utilizado: " ++ pfx ++ "\n" ++
  "🖼️  Total de imágenes extraídas: " ++ Nat.repr images.length ++ "\n" ++
  "📂 Carpeta de destino: " ++ output_folder ++ "\n" ++
  "📅 Fecha de procesamiento: " ++ fecha ++ "\n\n" ++
  "📊 ESTADÍSTICAS:\n" ++
  "   • Imágenes científicas: " ++ Nat.repr cientificas.length ++ "\n" ++
  "   • Imágenes generales: " ++ Nat.repr generales.length ++ "\n\n" ++
  "📈 FORMATOS DE IMAGEN:\n" ++
  String.join ((formatCounts images).map fun p =>
    "   • " ++ String.mk (p.1.toList.map asciiUpper) ++ ": " ++
    Nat.repr p.2 ++ " imágenes\n") ++
  "\n" ++
  "📄 DISTRIBUCIÓN POR PÁGINAS:\n" ++
  String.join ((sortedPageKeys images).map fun pag =>
    "   • Página " ++ Nat.repr pag ++ ": " ++
    Nat.repr (lookupCount (pageCounts images) pag) ++ " imágenes\n") ++
  "\n" ++
  sep70 ++ "\n" ++
  "DETALLE DE IMÁGENES EXTRAÍDAS\n" ++
  sep70 ++ "\n\n" ++
  String.join (reportDetails images) ++
  sep70 ++ "\n" ++
  "INSTRUCCIONES DE USO\n" ++
  sep70 ++ "\n" ++
  "FORMATO DE NOMBRES:\n" ++
  "NNN_PrefijoDelPDF_Pregunta_XX_TipoContenido_PagYY.ext\n\n" ++
  "EXPLICACIÓN:\n" ++
  "• NNN: Número secuencial (001, 002, 003...)\n" ++
  "• PrefijoDelPDF: " ++ pfx ++ " (derivado del nombre del PDF)\n" ++
  "• Pregunta_XX: Número de pregunta identificado automáticamente\n" ++
  "• TipoContenido: 'Cientifica' (fórmulas/gráficos) o 'General' (decorativa)\n" ++
  "• PagYY: Número de página donde se encontró la imagen\n" ++
  "• ext: Formato original (png, jpg, etc.)\n\n" ++
  "VENTAJAS DEL PREFIJO:\n" ++
  "• Diferencia imágenes de múltiples PDFs\n" ++
  "• Evita confusión entre preguntas con mismos números\n" ++
  "• Facilita organización de grandes volúmenes de imágenes\n" ++
  "• Permite identificar rápidamente la fuente del documento\n\n" ++
  "💡 SUGERENCIAS:\n" ++
  "• Revisa las imágenes 'Sin_Identificar' para renombrarlas manualmente\n" ++
  "• Las imágenes científicas suelen ser las más importantes\n" ++
  "• Verifica que no falten imágenes de preguntas específicas\n" ++
  "• El prefijo ayuda a organizar imágenes de múltiples documentos\n"

/-- Embedding of `PDFImageExtractor.extract_all_images` (lines 279–298): when the
document cannot be opened, return the empty result and do nothing else;
otherwise run the page loop with the counter starting at 1 and write the
report. -/
def extract_all_images (pdf_path banco pfx output_folder fecha : String)
    (doc : Document) : RunResult :=
  if !doc.open_ok then ⟨[], [], none⟩
  else
    let t := extract_pages_loop banco pfx doc.pages 0 1
    ⟨t.1, t.2.1, some (generate_report pdf_path banco pfx output_folder fecha t.1)⟩

/-- The sanitizing algorithm exactly as the claim words it: strip characters
outside `[\w\s-]`, collapse runs of whitespace/hyphen/underscore into a
single underscore, split on underscore, capitalize each non-empty fragment,
concatenate. -/
def sanitizeCoreClaim (filename : List Char) : String :=
  String.mk (List.flatten
    (((splitOnChar '_' (collapseRuns (filename.filter keepChar))).filter
        fun w => !w.isEmpty).map capitalizeL))

/-- The filename (basename without extension) that `extract_pdf_pfx` cleans. -/
def pfxFilename (p : String) : List Char :=
  splitext_root (os_basename p).toList

/-- The capitalize-and-concatenate core of `extract_pdf_pfx`, as a named
list: the capitalized non-empty underscore-fragments, concatenated. -/
def pfxCore (p : String) : List Char :=
  List.flatten
    (((splitOnChar '_' (collapseRuns ((pfxFilename p).filter keepChar))).filter
        fun w => !w.isEmpty).map capitalizeL)

/-- The `important_words` of `extract_pdf_pfx`: underscore-fragments longer
than three characters. -/
def pfxImportant (p : String) : List (List Char) :=
  (splitOnChar '_' (collapseRuns ((pfxFilename p).filter keepChar))).filter
    fun w => w.length > 3

/-- The abbreviation stage of `extract_pdf_pfx` (reached when the core
exceeds 20 characters). -/
def pfxAbbrev (p : String) : List Char :=
  if !(pfxImportant p).isEmpty then
    if (pfxImportant p).length ≤ 3 then
      List.flatten ((pfxImportant p).map fun w => (capitalizeL w).take 4)
    else
      List.flatten (((pfxImportant p).take 4).map fun w => (capitalizeL w).take 3)
  else pfxCore p

/-- The truncation applied after the abbreviation stage. -/
def pfxTrunc (p : String) : List Char :=
  if (pfxAbbrev p).length > 20 then (pfxAbbrev p).take 20 else pfxAbbrev p

/-- The capitalize-and-concatenate core of `clean_banco_name`: capitalized
whitespace-separated words, concatenated. -/
def bancoCore (s : String) : List Char :=
  List.flatten
    (((splitRuns (fun c => !isSpaceChar c) (s.toList.filter keepChar)).filter
        fun w => !w.isEmpty).map capitalizeL)

/-- The cleaned bank label just before the empty-fallback check of
`clean_banco_name`. -/
def bancoFinal (s : String) : List Char :=
  if (bancoCore s).length > 15 then (bancoCore s).take 15 else bancoCore s

/-- The cleaned name just before the empty-fallback check of
`extract_pdf_pfx`. -/
def pfxFinal (p : String) : List Char :=
  if (pfxCore p).length > 20 then pfxTrunc p else pfxCore p

/-- Concrete fixture: a healthy image candidate of the given pixel size. -/
def sampleImage (w h : Nat) : ImageCandidate :=
  ⟨w, h, "png", [default_rect], true, true⟩

/-- Concrete fixture: a page with the given images and no text layer. -/
def samplePage (imgs : List ImageCandidate) : Page :=
  ⟨500, 800, fun _ => "", "", imgs⟩

/-- Concrete fixture for the pipeline claims: 3 pages, 5 images, one of
them below the 50×50 threshold. -/
def sampleDoc : Document :=
  ⟨true, [samplePage [sampleImage 100 100, sampleImage 10 10],
          samplePage [sampleImage 60 60, sampleImage 200 300],
          samplePage [sampleImage 51 51]]⟩

/-- Concrete fixture: a document whose `fitz.open` fails. -/
def failDoc : Document := ⟨false, []⟩

/-- Concrete fixture: an image whose extraction raises. -/
def failImage : ImageCandidate := ⟨100, 100, "png", [], false, true⟩

/-- Concrete fixture for the context-locator claim: the text layer reports
`TOP` for a clip rectangle whose top edge is the page top and `MID`
otherwise. -/
def ctxPage : Page :=
  ⟨500, 800, fun r => if r.y0 = 0 then "TOP" else "MID", "FULL", []⟩

/-- Concrete fixture: an image placed 300 units below the page top. -/
def ctxRect : Rect := ⟨100, 300, 200, 400⟩

/-- Concrete fixture records for the report claims. -/
def sampleRecords : List ImageRecord :=
  [⟨1, 1, "001_f.png", "B", "P", "Pregunta_1", "General", (0, 0), "100x100", "png", ""⟩,
   ⟨2, 2, "002_f.jpeg", "B", "P", "Pregunta_2", "Cientifica", (0, 0), "60x60", "jpeg", "ctx"⟩]

end DataImg

namespace DataImg

/-- C1: evaluation of `extract_question_from_text` at the deciding inputs.
The spec says the loose pattern `Pregunta <N>` yields the full matched
number `N` (last occurrence), but for the text `"Pregunta 21"` the code
takes the branch guarded by `len(matches[0]) == 2` — written for two-group
patterns, yet also true of the two-character *string* `"21"` — and returns
`matches[-1][1]`, the second character only; on `"Pregunta 21 y Pregunta
5"` the same indexing raises `IndexError`.  The two examples of the claim
(`"1.21 Pregunta 21"` and a text with no pattern and no number in `[1, 50]`)
do hold. -/
theorem extract_question_two_digit_eval :
    extract_question_from_text "Pregunta 21" default_rect = Except.ok "Pregunta_1" ∧
    extract_question_from_text "1.21 Pregunta 21" default_rect = Except.ok "Pregunta_21" ∧
    extract_question_from_text "sin datos utiles 99" default_rect =
      Except.ok "Pregunta_Desconocida" ∧
    extract_question_from_text "Pregunta 21 y Pregunta 5" default_rect = Except.error () :=
  ⟨rfl, rfl, rfl, rfl⟩

/-- C10: the question tag depends only on the text argument; the
`image_position` parameter of `extract_question_from_text` never influences
the result. -/
theorem question_tag_position_noninterference (text : String) (p1 p2 : Rect) :
    extract_question_from_text text p1 = extract_question_from_text text p2 :=
  rfl

/-- A successful case-insensitive literal match relates the matched
characters to the pattern characters pointwise by lowercase equality. -/
theorem takeLitCI2_forall2 :
    ∀ (lit s m r : List Char), takeLitCI2 lit s = some (m, r) →
      List.Forall₂ (fun b p => asciiLower b = asciiLower p) m lit := by
  intro lit
  induction lit with
  | nil =>
    intro s m r h
    simp only [takeLitCI2, Option.some.injEq, Prod.mk.injEq] at h
    rw [← h.1]
    exact List.Forall₂.nil
  | cons p ps ih =>
    intro s m r h
    cases s with
    | nil => simp [takeLitCI2] at h
    | cons b bs =>
      simp only [takeLitCI2] at h
      split at h
      · rename_i hl
        cases hm : takeLitCI2 ps bs with
        | none => rw [hm] at h; simp at h
        | some pr =>
          rw [hm] at h
          simp only [Option.some.injEq, Prod.mk.injEq] at h
          rw [← h.1]
          exact List.Forall₂.cons hl (ih bs pr.1 pr.2 (by rw [hm]))
      · simp at h

/-- Pointwise lowercase equality entails equal lowercased lists. -/
theorem forall2_lower_map {l1 l2 : List Char}
    (h : List.Forall₂ (fun b p => asciiLower b = asciiLower p) l1 l2) :
    l1.map asciiLower = l2.map asciiLower := by
  induction h with
  | nil => rfl
  | cons hab _ ih => simp only [List.map_cons, ih, hab]

/-- A character whose lowercase form is `c` uppercases to `C`. -/
theorem asciiUpper_of_lower_c (b : Char) (h : asciiLower b = 'c') :
    asciiUpper b = 'C' := by
  unfold asciiLower at h
  split at h
  all_goals first
    | exact absurd h (by decide)
    | (subst_vars; decide)

/-- The matched text of the `(Cientifica)` pattern always capitalizes to
exactly `Cientifica`. -/
theorem capitalize_of_cient (s m r : List Char)
    (h : takeLitCI2 "Cientifica".toList s = some (m, r)) :
    capitalizeL m = "Cientifica".toList := by
  have hf := takeLitCI2_forall2 _ _ _ _ h
  have hl : "Cientifica".toList =
      'C' :: ['i', 'e', 'n', 't', 'i', 'f', 'i', 'c', 'a'] := rfl
  rw [hl] at hf
  cases hf with
  | cons hb htail =>
    rw [hl]
    simp only [capitalizeL, List.cons.injEq]
    refine ⟨asciiUpper_of_lower_c _ hb, ?_⟩
    rw [forall2_lower_map htail]
    decide

/-- A property of pattern captures transfers to `searchFirst` results. -/
theorem searchFirst_prop {α : Type} {patAt : List Char → Option (α × List Char)}
    (P : α → Prop) (hp : ∀ s a r, patAt s = some (a, r) → P a) :
    ∀ s a, searchFirst patAt s = some a → P a := by
  intro s
  induction s with
  | nil => intro a h; simp [searchFirst] at h
  | cons c rest ih =>
    intro a h
    simp only [searchFirst] at h
    cases hm : patAt (c :: rest) with
    | none => rw [hm] at h; exact ih a h
    | some pr =>
      rw [hm] at h
      simp only [Option.some.injEq] at h
      rw [← h]
      exact hp _ _ pr.2 (by rw [hm])

/-- C6 (counterexample): the claim reads the question pattern as accepting
`Pregunta_` or `Pregunta ` (space); the source pattern is `Pregunta_(\d+)`
only, so for the filename `Pregunta 21` the claimed parser finds question
`21` while `parse_filename` leaves every field unset. -/
theorem parse_filename_space_counterexample :
    parse_filename_claimed "Pregunta 21" = ⟨some "21", none, none⟩ ∧
    parse_filename "Pregunta 21" = ⟨none, none, none⟩ ∧
    parse_filename "Pregunta 21" ≠ parse_filename_claimed "Pregunta 21" :=
  ⟨rfl, rfl, by decide⟩

/-- C6 (amended): `parse_filename` performs three independent,
order-insensitive, case-insensitive searches — question number after the
literal token `Pregunta_` (underscore form only), category token matching
`Cientifica`, page number after `Pag` — each optional, absence leaving the
field unset; the category field, when set, is exactly `"Cientifica"`; the
claim's two examples evaluate as stated. -/
theorem parse_filename_amended_thm :
    (∀ f, parse_filename f = parse_filename_amended f) ∧
    parse_filename "Pregunta_21_Cientifica_Pag2" = ⟨some "21", some "2", some "Cientifica"⟩ ∧
    parse_filename "random_file" = ⟨none, none, none⟩ ∧
    ∀ f, (parse_filename f).type = none ∨ (parse_filename f).type = some "Cientifica" := by
  have key : ∀ f, parse_filename f = parse_filename_amended f := by
    intro f
    simp only [parse_filename, parse_filename_amended]
    cases h : searchFirst patCientAt f.toList with
    | none => rfl
    | some m =>
      have hm : capitalizeL m = "Cientifica".toList :=
        searchFirst_prop (fun a => capitalizeL a = "Cientifica".toList)
          (fun s a r hh => capitalize_of_cient s a r hh) f.toList m h
      have : String.mk (capitalizeL m) = "Cientifica" := by rw [hm]; rfl
      simp [this]
  refine ⟨key, rfl, rfl, fun f => ?_⟩
  rw [key]
  simp only [parse_filename_amended]
  cases h : searchFirst patCientAt f.toList with
  | none => simp
  | some m => simp

/-- A successfully processed image yields a record carrying the current
counter value, the filename it was written under, and a filename beginning
with the zero-padded counter. -/
theorem processImage_some {banco pfx : String} {page : Page} {pn c : Nat}
    {img : ImageCandidate} {r : ImageRecord} {fn : String}
    (h : processImage banco pfx page pn c img = some (r, fn)) :
    r.numero = c ∧ fn = r.archivo ∧ ∃ t, r.archivo = format003 c ++ t := by
  simp only [processImage] at h
  split at h
  · exact absurd h (by simp)
  · split at h
    · exact absurd h (by simp)
    · split at h
      · exact absurd h (by simp)
      · split at h
        · exact absurd h (by simp)
        · simp only [Option.some.injEq, Prod.mk.injEq] at h
          obtain ⟨h1, h2⟩ := h
          subst h1
          subst h2
          exact ⟨rfl, rfl, _, rfl⟩

/-- An image that is skipped (for any reason) leaves the loop state
untouched. -/
theorem extract_images_loop_skip {banco pfx : String} {page : Page} {pn c : Nat}
    {img : ImageCandidate} {rest : List ImageCandidate}
    (h : processImage banco pfx page pn c img = none) :
    extract_images_loop banco pfx page pn (img :: rest) c =
      extract_images_loop banco pfx page pn rest c := by
  simp [extract_images_loop, h]

/-- Invariant of the per-image loop: starting from counter `c`, the records
carry the consecutive numbers `c, c+1, …`, the written filenames are
exactly the records' filenames, the final counter is `c` plus the number of
records, and every filename begins with its record's zero-padded number. -/
theorem extract_images_loop_spec (banco pfx : String) (page : Page) (pn : Nat) :
    ∀ (imgs : List ImageCandidate) (c : Nat),
      ((extract_images_loop banco pfx page pn imgs c).1.map fun r => r.numero) =
        List.range' c (extract_images_loop banco pfx page pn imgs c).1.length ∧
      (extract_images_loop banco pfx page pn imgs c).2.1 =
        ((extract_images_loop banco pfx page pn imgs c).1.map fun r => r.archivo) ∧
      (extract_images_loop banco pfx page pn imgs c).2.2 =
        c + (extract_images_loop banco pfx page pn imgs c).1.length ∧
      ∀ r ∈ (extract_images_loop banco pfx page pn imgs c).1,
        ∃ t, r.archivo = format003 r.numero ++ t := by
  intro imgs
  induction imgs with
  | nil =>
    intro c
    simp [extract_images_loop, List.range']
  | cons img rest ih =>
    intro c
    cases hp : processImage banco pfx page pn c img with
    | none =>
      simpa [extract_images_loop_skip hp] using ih c
    | some pr =>
      obtain ⟨r0, fn0⟩ := pr
      obtain ⟨hn, hf, t0, ht⟩ := processImage_some hp
      obtain ⟨ih1, ih2, ih3, ih4⟩ := ih (c + 1)
      simp only [extract_images_loop, hp]
      refine ⟨?_, ?_, ?_, ?_⟩
      · simp only [List.map_cons, List.length_cons, List.range'_succ]
        rw [ih1, hn]
      · simp only [List.map_cons]
        rw [ih2, hf]
      · simp only [List.length_cons]
        rw [ih3]
        omega
      · intro r hr
        rcases List.mem_cons.mp hr with hr | hr
        · refine ⟨t0, ?_⟩
          rw [hr, hn]
          exact ht
        · exact ih4 r hr

/-- Invariant of the page loop: same statement as
`extract_images_loop_spec`, accumulated over all pages. -/
theorem extract_pages_loop_spec (banco pfx : String) :
    ∀ (pages : List Page) (pn c : Nat),
      ((extract_pages_loop banco pfx pages pn c).1.map fun r => r.numero) =
        List.range' c (extract_pages_loop banco pfx pages pn c).1.length ∧
      (extract_pages_loop banco pfx pages pn c).2.1 =
        ((extract_pages_loop banco pfx pages pn c).1.map fun r => r.archivo) ∧
      (extract_pages_loop banco pfx pages pn c).2.2 =
        c + (extract_pages_loop banco pfx pages pn c).1.length ∧
      ∀ r ∈ (extract_pages_loop banco pfx pages pn c).1,
        ∃ t, r.archivo = format003 r.numero ++ t := by
  intro pages
  induction pages with
  | nil =>
    intro pn c
    simp [extract_pages_loop, List.range']
  | cons pg rest ih =>
    intro pn c
    simp only [extract_pages_loop, extract_images_from_page]
    obtain ⟨h1, h2, h3, h4⟩ :=
      extract_images_loop_spec banco pfx pg pn pg.images c
    obtain ⟨g1, g2, g3, g4⟩ :=
      ih (pn + 1) (extract_images_loop banco pfx pg pn pg.images c).2.2
    rw [h3] at g1 g2 g3 g4
    rw [h3]
    refine ⟨?_, ?_, ?_, ?_⟩
    · simp only [List.map_append, List.length_append]
      rw [h1, g1]
      generalize (extract_pages_loop banco pfx rest (pn + 1)
        (c + (extract_images_loop banco pfx pg pn pg.images c).1.length)).1.length = b
      generalize (extract_images_loop banco pfx pg pn pg.images c).1.length = a
      calc List.range' c a ++ List.range' (c + a) b
          = List.range' c (b + a) := by
            have := List.range'_append c a b 1
            simp only [one_mul] at this
            exact this
        _ = List.range' c (a + b) := by rw [Nat.add_comm]
    · simp only [List.map_append]
      rw [h2, g2]
    · simp only [List.length_append]
      rw [g3]
      omega
    · intro r hr
      rcases List.mem_append.mp hr with hr | hr
      · exact h4 r hr
      · exact g4 r hr

/-- C3: in every run on an opened document the sequence counter starts at 1
and increments exactly once per image actually written: the records'
numbers are exactly `1, 2, …, k` (strictly increasing, no gaps), the files
written are exactly the records' filenames, each beginning with its
zero-padded sequence number; and an image below the 50×50 threshold is
skipped by `processImage` and consumes no sequence number. -/
theorem sequence_numbers_contiguous (pdf banco pfx folder fecha : String)
    (doc : Document) (h : doc.open_ok = true) :
    ((extract_all_images pdf banco pfx folder fecha doc).records.map fun r => r.numero) =
      List.range' 1 (extract_all_images pdf banco pfx folder fecha doc).records.length ∧
    (extract_all_images pdf banco pfx folder fecha doc).files =
      ((extract_all_images pdf banco pfx folder fecha doc).records.map fun r => r.archivo) ∧
    (∀ r ∈ (extract_all_images pdf banco pfx folder fecha doc).records,
      ∃ t, r.archivo = format003 r.numero ++ t) ∧
    ∀ (banco' pfx' : String) (page' : Page) (pn' c' : Nat) (img' : ImageCandidate),
      (img'.width < 50 ∨ img'.height < 50) →
      processImage banco' pfx' page' pn' c' img' = none ∧
      ∀ rest', extract_images_loop banco' pfx' page' pn' (img' :: rest') c' =
        extract_images_loop banco' pfx' page' pn' rest' c' := by
  have small : ∀ (banco' pfx' : String) (page' : Page) (pn' c' : Nat)
      (img' : ImageCandidate), (img'.width < 50 ∨ img'.height < 50) →
      processImage banco' pfx' page' pn' c' img' = none := by
    intro banco' pfx' page' pn' c' img' hs
    simp only [processImage]
    split
    · rfl
    · split
      · rfl
      · rename_i hcond
        exfalso
        rcases hs with hs | hs <;> simp_all
  obtain ⟨p1, p2, _, p4⟩ := extract_pages_loop_spec banco pfx doc.pages 0 1
  simp only [extract_all_images, h]
  exact ⟨p1, p2, p4, fun banco' pfx' page' pn' c' img' hs =>
    ⟨small banco' pfx' page' pn' c' img' hs,
     fun rest' => extract_images_loop_skip (small banco' pfx' page' pn' c' img' hs)⟩⟩

/-- C3 (witness): the sample document — 3 pages, 5 images, one below the
minimum size — yields exactly 4 records numbered 1–4 and 4 files whose
names begin `001`, `002`, `003`, `004`; and the 10×10 image consumes no
sequence number. -/
theorem sequence_numbers_contiguous_witness :
    sampleDoc.open_ok = true ∧
    (extract_all_images "p" "B" "P" "o" "f" sampleDoc).records.length = 4 ∧
    ((extract_all_images "p" "B" "P" "o" "f" sampleDoc).records.map fun r => r.numero) =
      List.range' 1 (extract_all_images "p" "B" "P" "o" "f" sampleDoc).records.length ∧
    ((extract_all_images "p" "B" "P" "o" "f" sampleDoc).files.map fun s => s.take 3) =
      ["001", "002", "003", "004"] ∧
    (sampleImage 10 10).width < 50 ∧
    processImage "B" "P" (samplePage []) 0 2 (sampleImage 10 10) = none :=
  ⟨rfl, rfl,
   (sequence_numbers_contiguous "p" "B" "P" "o" "f" sampleDoc rfl).1,
   rfl, by decide,
   ((sequence_numbers_contiguous "p" "B" "P" "o" "f" sampleDoc rfl).2.2.2
      "B" "P" (samplePage []) 0 2 (sampleImage 10 10) (Or.inl (by decide))).1⟩

/-- C4: if the document cannot be opened, `extract_all_images` returns the
empty result — no records, no image files, no report; and any single
per-image extraction or write failure makes `processImage` return `none`,
so the loop continues with the next image, creating no record and consuming
no sequence number. -/
theorem open_failure_and_per_image_skip :
    (∀ (pdf banco pfx folder fecha : String) (doc : Document),
      doc.open_ok = false →
      extract_all_images pdf banco pfx folder fecha doc = ⟨[], [], none⟩) ∧
    ∀ (banco pfx : String) (page : Page) (pn c : Nat) (img : ImageCandidate),
      (img.extract_ok = false ∨ img.write_ok = false) →
      processImage banco pfx page pn c img = none ∧
      ∀ rest, extract_images_loop banco pfx page pn (img :: rest) c =
        extract_images_loop banco pfx page pn rest c := by
  constructor
  · intro pdf banco pfx folder fecha doc h
    simp [extract_all_images, h]
  · intro banco pfx page pn c img h
    have hnone : processImage banco pfx page pn c img = none := by
      rcases h with h | h
      · simp [processImage, h]
      · simp only [processImage]
        split
        · rfl
        · split
          · rfl
          · split
            · rfl
            · simp [h]
    exact ⟨hnone, fun rest => extract_images_loop_skip hnone⟩

/-- C4 (witness): a failing `fitz.open` yields the empty run result, and an
image whose extraction raises is skipped with the loop state unchanged. -/
theorem open_failure_and_per_image_skip_witness :
    failDoc.open_ok = false ∧
    extract_all_images "p" "b" "x" "o" "d" failDoc = ⟨[], [], none⟩ ∧
    failImage.extract_ok = false ∧
    extract_images_loop "b" "x" (samplePage []) 0 [failImage] 1 =
      extract_images_loop "b" "x" (samplePage []) 0 [] 1 :=
  ⟨rfl,
   open_failure_and_per_image_skip.1 "p" "b" "x" "o" "d" failDoc rfl,
   rfl,
   (open_failure_and_per_image_skip.2 "b" "x" (samplePage []) 0 1 failImage
      (Or.inl rfl)).2 []⟩

/-- Every character of every run produced by `splitRunsAux` satisfies the
run predicate. -/
theorem keep_splitRunsAux (keep : Char → Bool) :
    ∀ (l acc : List Char), (∀ a ∈ acc, keep a = true) →
      ∀ w ∈ splitRunsAux keep l acc, ∀ c ∈ w, keep c = true := by
  intro l
  induction l with
  | nil =>
    intro acc hacc w hw c hc
    simp only [splitRunsAux] at hw
    split at hw
    · simp at hw
    · simp only [List.mem_singleton] at hw
      subst hw
      exact hacc c (List.mem_reverse.mp hc)
  | cons x xs ih =>
    intro acc hacc w hw c hc
    simp only [splitRunsAux] at hw
    split at hw
    · rename_i hx
      refine ih (x :: acc) ?_ w hw c hc
      intro a ha
      rcases List.mem_cons.mp ha with h | h
      · rw [h]; exact hx
      · exact hacc a h
    · split at hw
      · exact ih [] (by simp) w hw c hc
      · rcases List.mem_cons.mp hw with h | h
        · subst h
          exact hacc c (List.mem_reverse.mp hc)
        · exact ih [] (by simp) w h c hc

/-- Every character of every token of `splitRuns keep` satisfies `keep`. -/
theorem splitRuns_chars (keep : Char → Bool) (l : List Char) :
    ∀ w ∈ splitRuns keep l, ∀ c ∈ w, keep c = true :=
  keep_splitRunsAux keep l [] (by simp)

/-- The function `splitOnChar` always yields at least one fragment. -/
theorem splitOnChar_ne_nil (sep : Char) : ∀ l, splitOnChar sep l ≠ [] := by
  intro l
  cases l with
  | nil => simp [splitOnChar]
  | cons c rest =>
    simp only [splitOnChar]
    split
    · simp
    · split <;> simp

/-- Characters of `splitOnChar` fragments come from the input and are never
the separator. -/
theorem splitOnChar_chars (sep : Char) :
    ∀ (l w : List Char), w ∈ splitOnChar sep l → ∀ c ∈ w, c ∈ l ∧ c ≠ sep := by
  intro l
  induction l with
  | nil =>
    intro w hw c hc
    simp only [splitOnChar, List.mem_singleton] at hw
    subst hw
    simp at hc
  | cons x xs ih =>
    intro w hw c hc
    simp only [splitOnChar] at hw
    by_cases hx : x = sep
    · rw [if_pos hx] at hw
      rcases List.mem_cons.mp hw with h | h
      · subst h; simp at hc
      · have := ih w h c hc
        exact ⟨List.mem_cons_of_mem _ this.1, this.2⟩
    · rw [if_neg hx] at hw
      cases hws : splitOnChar sep xs with
      | nil => exact absurd hws (splitOnChar_ne_nil sep xs)
      | cons w0 t =>
        rw [hws] at hw
        rcases List.mem_cons.mp hw with h | h
        · subst h
          rcases List.mem_cons.mp hc with h | h
          · subst h
            exact ⟨List.mem_cons_self _ _, hx⟩
          · have := ih w0 (by rw [hws]; exact List.mem_cons_self _ _) c h
            exact ⟨List.mem_cons_of_mem _ this.1, this.2⟩
        · have := ih w (by rw [hws]; exact List.mem_cons_of_mem _ h) c hc
          exact ⟨List.mem_cons_of_mem _ this.1, this.2⟩

/-- Characters of the collapsed string are underscores or non-separator
characters of the input. -/
theorem collapseRuns_chars :
    ∀ (l : List Char) (b : Bool) (c : Char), c ∈ collapseRunsAux b l →
      c = '_' ∨ (c ∈ l ∧ isSepChar c = false) := by
  intro l
  induction l with
  | nil =>
    intro b c hc
    simp [collapseRunsAux] at hc
  | cons x xs ih =>
    intro b c hc
    simp only [collapseRunsAux] at hc
    split at hc
    · split at hc
      · rcases ih true c hc with h | h
        · exact Or.inl h
        · exact Or.inr ⟨List.mem_cons_of_mem _ h.1, h.2⟩
      · rcases List.mem_cons.mp hc with h | h
        · exact Or.inl h
        · rcases ih true c h with h' | h'
          · exact Or.inl h'
          · exact Or.inr ⟨List.mem_cons_of_mem _ h'.1, h'.2⟩
    · rename_i hx
      rcases List.mem_cons.mp hc with h | h
      · subst h
        exact Or.inr ⟨List.mem_cons_self _ _, by simpa using hx⟩
      · rcases ih false c h with h' | h'
        · exact Or.inl h'
        · exact Or.inr ⟨List.mem_cons_of_mem _ h'.1, h'.2⟩

/-- The map `asciiUpper` sends non-separator characters to non-separator
characters. -/
theorem isSepChar_asciiUpper (c : Char) (h : isSepChar c = false) :
    isSepChar (asciiUpper c) = false := by
  unfold asciiUpper
  split
  all_goals first | decide | exact h

/-- The map `asciiLower` sends non-separator characters to non-separator
characters. -/
theorem isSepChar_asciiLower (c : Char) (h : isSepChar c = false) :
    isSepChar (asciiLower c) = false := by
  unfold asciiLower
  split
  all_goals first | decide | exact h

/-- The map `asciiUpper` sends non-whitespace to non-whitespace. -/
theorem isSpaceChar_asciiUpper (c : Char) (h : isSpaceChar c = false) :
    isSpaceChar (asciiUpper c) = false := by
  unfold asciiUpper
  split
  all_goals first | decide | exact h

/-- The map `asciiLower` sends non-whitespace to non-whitespace. -/
theorem isSpaceChar_asciiLower (c : Char) (h : isSpaceChar c = false) :
    isSpaceChar (asciiLower c) = false := by
  unfold asciiLower
  split
  all_goals first | decide | exact h

/-- The map `capitalizeL` preserves freedom from separator characters. -/
theorem capitalizeL_sep_chars (w : List Char)
    (hw : ∀ d ∈ w, isSepChar d = false) :
    ∀ c ∈ capitalizeL w, isSepChar c = false := by
  cases w with
  | nil => simp [capitalizeL]
  | cons x xs =>
    intro c hc
    simp only [capitalizeL, List.mem_cons] at hc
    rcases hc with h | h
    · rw [h]
      exact isSepChar_asciiUpper x (hw x (List.mem_cons_self _ _))
    · obtain ⟨d, hd, rfl⟩ := List.mem_map.mp h
      exact isSepChar_asciiLower d (hw d (List.mem_cons_of_mem _ hd))

/-- The map `capitalizeL` preserves freedom from whitespace. -/
theorem capitalizeL_space_chars (w : List Char)
    (hw : ∀ d ∈ w, isSpaceChar d = false) :
    ∀ c ∈ capitalizeL w, isSpaceChar c = false := by
  cases w with
  | nil => simp [capitalizeL]
  | cons x xs =>
    intro c hc
    simp only [capitalizeL, List.mem_cons] at hc
    rcases hc with h | h
    · rw [h]
      exact isSpaceChar_asciiUpper x (hw x (List.mem_cons_self _ _))
    · obtain ⟨d, hd, rfl⟩ := List.mem_map.mp h
      exact isSpaceChar_asciiLower d (hw d (List.mem_cons_of_mem _ hd))

/-- The underscore-fragments that `extract_pdf_pfx` capitalizes contain no
separator characters (no whitespace, no hyphen, no underscore). -/
theorem pfx_words_chars (p : String) :
    ∀ w ∈ splitOnChar '_' (collapseRuns ((pfxFilename p).filter keepChar)),
      ∀ d ∈ w, isSepChar d = false := by
  intro w hw d hd
  obtain ⟨hdc, hdne⟩ := splitOnChar_chars '_' _ w hw d hd
  rcases collapseRuns_chars _ false d hdc with h | h
  · exact absurd h hdne
  · exact h.2

/-- Membership in a packed string is membership in its character list. -/
theorem mem_toList_mk {c : Char} {l : List Char} :
    c ∈ (String.mk l).toList ↔ c ∈ l :=
  Iff.rfl

/-- Unfolding of `extract_pdf_pfx` onto the named stages: the let-chain of the
source is definitionally the `pfxFinal` pipeline followed by the empty
fallback. -/
theorem extract_pdf_pfx_eq_stages (p : String) :
    extract_pdf_pfx p =
      if (pfxFinal p).isEmpty = true then "PDF" else String.mk (pfxFinal p) :=
  rfl

/-- Characters of the core stage are never separator characters. -/
theorem pfxCore_chars (p : String) :
    ∀ c ∈ pfxCore p, isSepChar c = false := by
  intro c hc
  obtain ⟨w', hw', hcw⟩ := List.mem_flatten.mp hc
  obtain ⟨w, hw, rfl⟩ := List.mem_map.mp hw'
  exact capitalizeL_sep_chars w
    (pfx_words_chars p w (List.mem_filter.mp hw).1) c hcw

/-- Characters of the abbreviation stage are never separator characters. -/
theorem pfxAbbrev_chars (p : String) :
    ∀ c ∈ pfxAbbrev p, isSepChar c = false := by
  intro c hc
  simp only [pfxAbbrev] at hc
  split at hc
  · split at hc
    · obtain ⟨w', hw', hcw⟩ := List.mem_flatten.mp hc
      obtain ⟨w, hw, rfl⟩ := List.mem_map.mp hw'
      have hwo : w ∈ splitOnChar '_' (collapseRuns ((pfxFilename p).filter keepChar)) := by
        simp only [pfxImportant] at hw
        exact (List.mem_filter.mp hw).1
      exact capitalizeL_sep_chars w (pfx_words_chars p w hwo) c
        (List.take_subset _ _ hcw)
    · obtain ⟨w', hw', hcw⟩ := List.mem_flatten.mp hc
      obtain ⟨w, hw, rfl⟩ := List.mem_map.mp hw'
      have hwo : w ∈ splitOnChar '_' (collapseRuns ((pfxFilename p).filter keepChar)) := by
        have := List.take_subset 4 (pfxImportant p) hw
        simp only [pfxImportant] at this
        exact (List.mem_filter.mp this).1
      exact capitalizeL_sep_chars w (pfx_words_chars p w hwo) c
        (List.take_subset _ _ hcw)
  · exact pfxCore_chars p c hc

/-- Characters of the final stage are never separator characters. -/
theorem pfxFinal_chars (p : String) :
    ∀ c ∈ pfxFinal p, isSepChar c = false := by
  intro c hc
  simp only [pfxFinal, pfxTrunc] at hc
  split at hc
  · split at hc
    · exact pfxAbbrev_chars p c (List.take_subset _ _ hc)
    · exact pfxAbbrev_chars p c hc
  · exact pfxCore_chars p c hc

/-- No character of `extract_pdf_pfx`'s output is a separator character:
the document prefix never contains whitespace, a hyphen or an
underscore. -/
theorem extract_pdf_pfx_chars (p : String) :
    ∀ c ∈ (extract_pdf_pfx p).toList, isSepChar c = false := by
  intro c hc
  rw [extract_pdf_pfx_eq_stages] at hc
  have hp : ∀ x ∈ ("PDF" : String).toList, isSepChar x = false := by decide
  split at hc
  · exact hp c hc
  · exact pfxFinal_chars p c (mem_toList_mk.mp hc)

/-- The length of a packed string is the length of its character list. -/
theorem length_mk (l : List Char) : (String.mk l).length = l.length :=
  rfl

/-- A packed non-empty character list is a non-empty string. -/
theorem mk_ne_empty {l : List Char} (h : l.isEmpty = false) :
    String.mk l ≠ "" := by
  intro heq
  have hd : l = [] := congrArg String.data heq
  rw [hd] at h
  simp at h

/-- Unfolding of `clean_banco_name` onto the named stages. -/
theorem clean_banco_name_eq_stages (s : String) :
    clean_banco_name s =
      if s = "" then "BancoPreguntas"
      else if (bancoFinal s).isEmpty = true then "BancoPreguntas"
      else String.mk (bancoFinal s) :=
  rfl

/-- Characters of the banco core stage are never whitespace. -/
theorem bancoCore_chars (s : String) :
    ∀ c ∈ bancoCore s, isSpaceChar c = false := by
  intro c hc
  obtain ⟨w', hw', hcw⟩ := List.mem_flatten.mp hc
  obtain ⟨w, hw, rfl⟩ := List.mem_map.mp hw'
  refine capitalizeL_space_chars w ?_ c hcw
  intro d hd
  have := splitRuns_chars (fun c => !isSpaceChar c) (s.toList.filter keepChar)
    w (List.mem_filter.mp hw).1 d hd
  simpa using this

/-- No character of `clean_banco_name`'s output is whitespace. -/
theorem clean_banco_chars (s : String) :
    ∀ c ∈ (clean_banco_name s).toList, isSpaceChar c = false := by
  intro c hc
  rw [clean_banco_name_eq_stages] at hc
  have hb : ∀ x ∈ ("BancoPreguntas" : String).toList, isSpaceChar x = false := by
    decide
  split at hc
  · exact hb c hc
  · split at hc
    · exact hb c hc
    · have hc' := mem_toList_mk.mp hc
      simp only [bancoFinal] at hc'
      split at hc'
      · exact bancoCore_chars s c (List.take_subset _ _ hc')
      · exact bancoCore_chars s c hc'

/-- C5 (counterexample): the claim says the collapse-and-split-on-underscore
algorithm applies to the question-bank label as well, so its output never
contains a hyphen; but `clean_banco_name` splits on whitespace only, and on
the input `a-b` it returns `A-b`, which contains a hyphen. -/
theorem banco_name_hyphen_counterexample :
    clean_banco_name "a-b" = "A-b" ∧ '-' ∈ (clean_banco_name "a-b").toList :=
  ⟨rfl, by decide⟩

/-- C5 (amended): the strip/collapse/split-on-underscore/capitalize
algorithm is the one applied to the document prefix (where, whenever its
result respects the 20-character bound and is non-empty, it is exactly
`extract_pdf_pfx`'s output); the question-bank cleaner strips the same
characters but splits on whitespace only, so hyphens and underscores can
survive in it.  The document prefix never contains a hyphen or whitespace,
and the question-bank label never contains whitespace. -/
theorem sanitizer_amended :
    (∀ p, ∀ c ∈ (extract_pdf_pfx p).toList, c ≠ '-' ∧ isSpaceChar c = false) ∧
    (∀ s, ∀ c ∈ (clean_banco_name s).toList, isSpaceChar c = false) ∧
    ∀ p, (sanitizeCoreClaim (pfxFilename p)).length ≤ 20 →
      sanitizeCoreClaim (pfxFilename p) ≠ "" →
      extract_pdf_pfx p = sanitizeCoreClaim (pfxFilename p) := by
  refine ⟨?_, clean_banco_chars, ?_⟩
  · intro p c hc
    have h := extract_pdf_pfx_chars p c hc
    constructor
    · intro hcc
      rw [hcc] at h
      exact absurd h (by decide)
    · cases hI : isSpaceChar c
      · rfl
      · exfalso
        unfold isSepChar at h
        rw [hI] at h
        simp at h
  · intro p h1 h2
    have hcoreEq : sanitizeCoreClaim (pfxFilename p) = String.mk (pfxCore p) := rfl
    have h1' : (pfxCore p).length ≤ 20 := by
      rw [hcoreEq, length_mk] at h1
      exact h1
    have h2' : (pfxCore p).isEmpty = false := by
      rw [hcoreEq] at h2
      cases he : (pfxCore p).isEmpty
      · rfl
      · exfalso
        apply h2
        have hnil : pfxCore p = [] := by simpa using he
        rw [hnil]
    have hfin : pfxFinal p = pfxCore p := by
      simp only [pfxFinal]
      rw [if_neg (by omega)]
    rw [extract_pdf_pfx_eq_stages, hfin, h2', hcoreEq]
    simp

/-- C5 (witness): on `informe.pdf` the claim-worded core algorithm stays
within the bound, so the document prefix equals it; and a capital letter in
the prefix of `a-b.pdf` is not a hyphen. -/
theorem sanitizer_amended_witness :
    (sanitizeCoreClaim (pfxFilename "informe.pdf")).length ≤ 20 ∧
    sanitizeCoreClaim (pfxFilename "informe.pdf") ≠ "" ∧
    extract_pdf_pfx "informe.pdf" = sanitizeCoreClaim (pfxFilename "informe.pdf") ∧
    ('A' ∈ (extract_pdf_pfx "a-b.pdf").toList → 'A' ≠ '-') :=
  ⟨by decide, by decide,
   sanitizer_amended.2.2 "informe.pdf" (by decide) (by decide),
   fun h => (sanitizer_amended.1 "a-b.pdf" 'A' h).1⟩

/-- C8: both sanitizers respect their length bound (15 for the bank label,
20 for the document prefix), never return the empty string, and are
deterministic. -/
theorem sanitizer_bounds :
    (∀ s, (clean_banco_name s).length ≤ 15 ∧ clean_banco_name s ≠ "") ∧
    (∀ p, (extract_pdf_pfx p).length ≤ 20 ∧ extract_pdf_pfx p ≠ "") ∧
    ∀ s t, s = t →
      clean_banco_name s = clean_banco_name t ∧
      extract_pdf_pfx s = extract_pdf_pfx t := by
  refine ⟨?_, ?_, ?_⟩
  · intro s
    rw [clean_banco_name_eq_stages]
    split
    · exact ⟨by decide, by decide⟩
    · split
      · exact ⟨by decide, by decide⟩
      · rename_i hne
        constructor
        · rw [length_mk]
          simp only [bancoFinal]
          split
          · simp [List.length_take]
          · omega
        · exact mk_ne_empty (by simpa using hne)
  · intro p
    rw [extract_pdf_pfx_eq_stages]
    split
    · exact ⟨by decide, by decide⟩
    · rename_i hne
      constructor
      · rw [length_mk]
        simp only [pfxFinal, pfxTrunc]
        split
        · split
          · simp [List.length_take]
          · omega
        · omega
      · exact mk_ne_empty (by simpa using hne)
  · intro s t h
    rw [h]
    exact ⟨rfl, rfl⟩

/-- C8 (witness): the bound, non-emptiness and determinism at concrete
inputs. -/
theorem sanitizer_bounds_witness :
    (clean_banco_name "Banco de Preguntas ICFES 2024!").length ≤ 15 ∧
    clean_banco_name "Banco de Preguntas ICFES 2024!" ≠ "" ∧
    (extract_pdf_pfx "Lectura Critica - Sesion 11!.pdf").length ≤ 20 ∧
    extract_pdf_pfx "Lectura Critica - Sesion 11!.pdf" ≠ "" ∧
    clean_banco_name "x" = clean_banco_name "x" :=
  ⟨(sanitizer_bounds.1 _).1, (sanitizer_bounds.1 _).2,
   (sanitizer_bounds.2.1 _).1, (sanitizer_bounds.2.1 _).2,
   (sanitizer_bounds.2.2 "x" "x" rfl).1⟩

/-- C2 (counterexample): the claim says the second text rectangle runs from
the top of the page (y = 0) down to the image's top edge; the source starts
it at `max(0, y0 − 2·margin)` instead, and the two computations disagree on
a page whose text layer distinguishes the two rectangles. -/
theorem surrounding_text_top_counterexample :
    get_surrounding_text ctxPage ctxRect 100 ≠
      get_surrounding_text_claimed ctxPage ctxRect 100 := by
  have h1 : get_surrounding_text ctxPage ctxRect 100 = ("TOP\nMID", "FULL") := by
    simp only [get_surrounding_text, ctxPage, ctxRect]
    norm_num [max_def]
    rfl
  have h2 : get_surrounding_text_claimed ctxPage ctxRect 100 = ("TOP\nTOP", "FULL") := by
    simp only [get_surrounding_text_claimed, ctxPage, ctxRect]
    norm_num [max_def]
    rfl
  rw [h1, h2]
  decide

/-- C2 (amended): `get_surrounding_text` computes (a) the image rectangle
expanded by the margin left, right and below and by three margins above,
clamped to the page bounds, and (b) a rectangle spanning the full page
width from `max(0, image top − 2·margin)` down to the image's top edge, and
returns the text of (a), a newline, and the text of (b) concatenated, plus
the page's full text as a separate second value. -/
theorem surrounding_text_amended (page : Page) (image_rect : Rect)
    (context_margin : Rat) :
    get_surrounding_text page image_rect context_margin =
      get_surrounding_text_amended page image_rect context_margin :=
  rfl

/-- A dict bump adds exactly one to the total count. -/
theorem sumSnd_bumpCount {α : Type} [DecidableEq α] (m : List (α × Nat)) (k : α) :
    sumSnd (bumpCount m k) = sumSnd m + 1 := by
  induction m with
  | nil => simp [bumpCount, sumSnd]
  | cons hd tl ih =>
    obtain ⟨k', v⟩ := hd
    by_cases h : k' = k
    · simp only [bumpCount, if_pos h, sumSnd, List.map_cons, List.sum_cons]
      omega
    · simp only [bumpCount, if_neg h, sumSnd, List.map_cons, List.sum_cons] at ih ⊢
      omega

/-- Folding dict bumps over a record list adds the list's length to the
total count. -/
theorem sumSnd_fold_general {α : Type} [DecidableEq α] (f : ImageRecord → α) :
    ∀ (l : List ImageRecord) (m : List (α × Nat)),
      sumSnd (l.foldl (fun acc i => bumpCount acc (f i)) m) = sumSnd m + l.length := by
  intro l
  induction l with
  | nil => intro m; simp
  | cons x xs ih =>
    intro m
    simp only [List.foldl_cons, List.length_cons]
    rw [ih (bumpCount m (f x)), sumSnd_bumpCount]
    omega

/-- The function `enumFrom` preserves length. -/
theorem length_enumFrom {α : Type} : ∀ (l : List α) (n : Nat),
    (enumFrom n l).length = l.length := by
  intro l
  induction l with
  | nil => intro n; simp [enumFrom]
  | cons x xs ih => intro n; simp [enumFrom, ih]

/-- The `i`-th element of a mapped enumeration is the function applied to
the shifted index and the `i`-th element. -/
theorem enumFrom_map_getD (f : Nat × ImageRecord → String) :
    ∀ (l : List ImageRecord) (n i : Nat), i < l.length →
      ((enumFrom n l).map f).getD i "" = f (n + i, l.getD i default) := by
  intro l
  induction l with
  | nil => intro n i h; simp at h
  | cons x xs ih =>
    intro n i h
    cases i with
    | zero => simp [enumFrom]
    | succ j =>
      simp only [enumFrom, List.map_cons, List.getD_cons_succ]
      have hj : j < xs.length := by simpa using h
      rw [ih (n + 1) j hj]
      have harith : n + 1 + j = n + (j + 1) := by omega
      rw [harith]

/-- C9: the per-format counts and the per-page counts of the report each
sum to the total record count; the per-page breakdown is emitted over the
page keys sorted ascending (a permutation of the page-dict keys); and the
detail blocks are exactly one per record, in input order, none filtered or
reordered. -/
theorem report_counts_and_order (images : List ImageRecord) :
    sumSnd (formatCounts images) = images.length ∧
    sumSnd (pageCounts images) = images.length ∧
    List.Sorted (· ≤ ·) (sortedPageKeys images) ∧
    (sortedPageKeys images).Perm ((pageCounts images).map Prod.fst) ∧
    (reportDetails images).length = images.length ∧
    ∀ i, i < images.length →
      (reportDetails images).getD i "" = detailBlock (i + 1) (images.getD i default) := by
  refine ⟨?_, ?_, ?_, ?_, ?_, ?_⟩
  · simpa [sumSnd] using sumSnd_fold_general (fun i => i.formato) images []
  · simpa [sumSnd] using sumSnd_fold_general (fun i => i.pagina) images []
  · exact List.sorted_insertionSort _ _
  · exact List.perm_insertionSort _ _
  · simp [reportDetails, length_enumFrom]
  · intro i h
    have hthis := enumFrom_map_getD (fun p => detailBlock p.1 p.2) images 1 i h
    have harith : 1 + i = i + 1 := Nat.add_comm 1 i
    rw [harith] at hthis
    simpa [reportDetails] using hthis

/-- C9 (witness): the counting and ordering facts at a concrete two-record
list. -/
theorem report_counts_and_order_witness :
    sumSnd (formatCounts sampleRecords) = sampleRecords.length ∧
    sumSnd (pageCounts sampleRecords) = sampleRecords.length ∧
    0 < sampleRecords.length ∧
    (reportDetails sampleRecords).getD 0 "" = detailBlock 1 (sampleRecords.getD 0 default) :=
  ⟨(report_counts_and_order sampleRecords).1,
   (report_counts_and_order sampleRecords).2.1,
   by decide,
   by
     have hthis := (report_counts_and_order sampleRecords).2.2.2.2.2 0 (by decide)
     simpa using hthis⟩

/-- C7: `is_scientific_content` is total and binary, and the given examples
evaluate as claimed — but the keyword `pH` of its own vocabulary can never
match, because the text is lowercased while the keyword keeps its uppercase
`H`; so text containing the vocabulary keyword `pH` is classified General,
against the claimed case-insensitive membership test. -/
theorem classifier_ph_eval :
    is_scientific_content "el pH" = false ∧
    is_scientific_content "ecuación química" = true ∧
    is_scientific_content "foto decorativa" = false ∧
    ∀ t, content_type_of t = "Cientifica" ∨ content_type_of t = "General" := by
  refine ⟨rfl, rfl, rfl, fun t => ?_⟩
  by_cases h : is_scientific_content t <;> simp [content_type_of, h]

end DataImg
